import Mathlib

/-!
Shallow embedding of the `ctxlock` package (file `ctxlock.go`): a stackable,
Context-aware locking mechanism.  The reentrancy depth of a call path is
stored inside the propagated context under the lock's lazily assigned
identifier, and blocked acquirers are woken through a condition variable.

Modelling conventions:
* A Go `context.Context` is an immutable chain of key/value pairs plus a
  cancellation flag (`cancelled = true` means `ctx.Done()` has fired and
  `ctx.Err()` is non-nil).
* The `ContextLock` state keeps the `held` flag, the `lockID` (`id = 0` is
  the uninitialized sentinel) and whether the condition variable `cond` has
  been allocated.  The `sync.Mutex` field serializes each method body, so
  every method call is modelled as one atomic transition.
* Randomness in `_setup` is modelled by a `fresh` parameter standing for the
  value on which the redraw-until-non-zero loop settles (so `fresh ≠ 0`).
* `Lock`, `Unlock` and `Clear` return a record carrying the successor lock
  state, the returned context (`none` models a nil Go context), whether the
  returned error is non-nil, and the number of `Wait`, `Signal` and
  `Broadcast` calls performed, so that the waking behaviour is observable.
* A `Lock` call whose wait loop can never be exited within the call itself
  (lock held, context not cancelled) is reported as `blocked`.
-/

/-- A propagated call-context: an immutable key/value chain plus a
cancellation flag. `cancelled = true` models `ctx.Done()` having fired, in
which case `ctx.Err()` returns the non-nil cancellation error. -/
structure Ctx where
  cancelled : Bool
  vals : List (Nat × Int)
deriving DecidableEq

/-- Go `ctx.Value(key)` restricted to the integer depth entries this package
stores: the most recently added binding for `key` wins. -/
def Ctx.value (ctx : Ctx) (key : Nat) : Option Int :=
  (ctx.vals.find? (fun p => p.1 == key)).map (fun p => p.2)

/-- Go `context.WithValue(ctx, key, v)`: a new context answering `v` for
`key` and delegating to `ctx` for every other key. -/
def Ctx.withValue (ctx : Ctx) (key : Nat) (v : Int) : Ctx :=
  { ctx with vals := (key, v) :: ctx.vals }

/-- The `ContextLock` state: whether the condition variable `cond` has been
allocated, the `held` flag, and the `lockID` `id` (`0` = uninitialized). -/
structure ContextLock where
  condInit : Bool
  held : Bool
  id : Nat
deriving DecidableEq

/-- The zero-valued `ContextLock`, documented as valid and unheld. -/
def ContextLock.zero : ContextLock :=
  { condInit := false, held := false, id := 0 }

/-- `_setup`: allocate the condition variable if it is still nil and redraw
random identifiers while `id == 0`; `fresh` is the non-zero value the redraw
loop settles on. -/
def ContextLock._setup (c : ContextLock) (fresh : Nat) : ContextLock :=
  { c with condInit := true, id := if c.id = 0 then fresh else c.id }

/-- The `if c.id == 0 { c._setup() }` prologue shared by `Lock`. -/
def ContextLock.ensureSetup (c : ContextLock) (fresh : Nat) : ContextLock :=
  if c.id = 0 then c._setup fresh else c

/-- `_depth`: the depth stored in `ctx` under this lock's identifier,
defaulting to `0` when absent. -/
def ContextLock._depth (c : ContextLock) (ctx : Ctx) : Int :=
  match ctx.value c.id with
  | some d => d
  | none => 0

/-- Result of `_withDepth`: the returned context (`none` models a nil Go
context), whether the returned error is non-nil, and the number of
`Broadcast` calls made. -/
structure DepthResult where
  rctx : Option Ctx
  err : Bool
  broadcasts : Nat
deriving DecidableEq

/-- `_withDepth`: when `ctx` is already cancelled, broadcast and return
`(nil, ctx.Err())`; otherwise return `context.WithValue(ctx, c.id, value)`
and a nil error. -/
def ContextLock._withDepth (c : ContextLock) (ctx : Ctx) (value : Int) : DepthResult :=
  if ctx.cancelled then
    { rctx := none, err := true, broadcasts := 1 }
  else
    { rctx := some (ctx.withValue c.id value), err := false, broadcasts := 0 }

/-- Outcome of a `Lock` call under closed single-call semantics: either the
call returns `(rctx, err)`, or it is still blocked inside the wait loop
(possible only when the lock is held, the caller's depth is 0 and the
context is not cancelled, so neither a signal nor a cancellation can end the
wait within this call alone). -/
inductive LockRet where
  | ret (rctx : Option Ctx) (err : Bool)
  | blocked
deriving DecidableEq

/-- Result of a `Lock` call: successor lock state, outcome, and the number
of `Wait`, `Signal` and `Broadcast` calls performed. -/
structure LockResult where
  state : ContextLock
  out : LockRet
  waits : Nat
  signals : Nat
  broadcasts : Nat
deriving DecidableEq

/-- `Lock`: lazily set up, read the caller's depth from `ctx`; at depth 0
wait while `held` (a cancelled context makes `_wait` return `ctx.Err()`
after the watcher goroutine broadcasts, and `Lock` then returns the original
`ctx` with that error) and then set `held = true`; finally return
`_withDepth(ctx, depth+1)`. -/
def ContextLock.Lock (c : ContextLock) (ctx : Ctx) (fresh : Nat) : LockResult :=
  let c1 := c.ensureSetup fresh
  let depth := c1._depth ctx
  if depth = 0 then
    if c1.held then
      if ctx.cancelled then
        { state := c1, out := .ret (some ctx) true, waits := 1, signals := 0, broadcasts := 1 }
      else
        { state := c1, out := .blocked, waits := 1, signals := 0, broadcasts := 0 }
    else
      let c2 := { c1 with held := true }
      let r := c2._withDepth ctx (depth + 1)
      { state := c2, out := .ret r.rctx r.err, waits := 0, signals := 0, broadcasts := r.broadcasts }
  else
    let r := c1._withDepth ctx (depth + 1)
    { state := c1, out := .ret r.rctx r.err, waits := 0, signals := 0, broadcasts := r.broadcasts }

/-- Result of an `Unlock` or `Clear` call: successor lock state, returned
context (`none` models nil), whether the returned error is non-nil, and the
number of `Signal` and `Broadcast` calls performed. -/
structure OpResult where
  state : ContextLock
  rctx : Option Ctx
  err : Bool
  signals : Nat
  broadcasts : Nat
deriving DecidableEq

/-- `Unlock`: no-op on an uninitialized lock; otherwise switch on the depth
read from `ctx`, with Go fallthrough semantics: depth 0 while unheld is a
no-op; depth 0 while held and depth 1 clear `held`, `Signal` one waiter and
fall through to the decrement; the default case decrements a positive depth.
Every non-no-op path ends in `_withDepth(ctx, depth)`. -/
def ContextLock.Unlock (c : ContextLock) (ctx : Ctx) : OpResult :=
  if c.id = 0 then
    { state := c, rctx := some ctx, err := false, signals := 0, broadcasts := 0 }
  else
    let depth := c._depth ctx
    if depth = 0 ∧ c.held = false then
      { state := c, rctx := some ctx, err := false, signals := 0, broadcasts := 0 }
    else if depth = 0 ∨ depth = 1 then
      let c2 := { c with held := false }
      let depth2 := if depth > 0 then depth - 1 else depth
      let r := c2._withDepth ctx depth2
      { state := c2, rctx := r.rctx, err := r.err, signals := 1, broadcasts := r.broadcasts }
    else
      let depth2 := if depth > 0 then depth - 1 else depth
      let r := c._withDepth ctx depth2
      { state := c, rctx := r.rctx, err := r.err, signals := 0, broadcasts := r.broadcasts }

/-- `Clear`: when the lock is held, return `_withDepth(ctx, 0)` leaving the
lock state untouched; otherwise return `ctx` itself with a nil error. -/
def ContextLock.Clear (c : ContextLock) (ctx : Ctx) : OpResult :=
  if c.held then
    let r := c._withDepth ctx 0
    { state := c, rctx := r.rctx, err := r.err, signals := 0, broadcasts := r.broadcasts }
  else
    { state := c, rctx := some ctx, err := false, signals := 0, broadcasts := 0 }

/-- Setup is skipped when the identifier is already assigned. -/
theorem ensureSetup_of_ne (c : ContextLock) (fresh : Nat) (h : c.id ≠ 0) :
    c.ensureSetup fresh = c := by
  simp [ContextLock.ensureSetup, h]

/-- After the setup prologue the identifier is `fresh` on a zero identifier
and unchanged otherwise. -/
theorem ensureSetup_id (c : ContextLock) (fresh : Nat) :
    (c.ensureSetup fresh).id = if c.id = 0 then fresh else c.id := by
  by_cases h : c.id = 0 <;>
    simp [ContextLock.ensureSetup, ContextLock._setup, h]

/-- The setup prologue never changes the `held` flag. -/
theorem ensureSetup_held (c : ContextLock) (fresh : Nat) :
    (c.ensureSetup fresh).held = c.held := by
  by_cases h : c.id = 0 <;>
    simp [ContextLock.ensureSetup, ContextLock._setup, h]

/-- After the setup prologue the condition variable is allocated on a zero
identifier and untouched otherwise. -/
theorem ensureSetup_condInit (c : ContextLock) (fresh : Nat) :
    (c.ensureSetup fresh).condInit = if c.id = 0 then true else c.condInit := by
  by_cases h : c.id = 0 <;>
    simp [ContextLock.ensureSetup, ContextLock._setup, h]

/-- Reading the depth of a context right after `withValue` returns the value
just written. -/
theorem depth_withValue (c : ContextLock) (ctx : Ctx) (v : Int) :
    c._depth (ctx.withValue c.id v) = v := by
  simp [ContextLock._depth, Ctx.withValue, Ctx.value, List.find?]

/-- C1: the claim fails on the code. At the failing input — an initialized,
unheld lock and an already-cancelled input context carrying no depth entry —
`Lock` takes the depth-0 path without waiting (the lock is free), sets
`held = true`, and only then `_withDepth` observes the cancellation and
returns a nil context with the cancellation error: a non-nil error is
returned yet `held` flipped from `false` to `true`, so the lock is leaked on
this error path. -/
theorem lock_held_leak_on_cancelled_finalization :
    (ContextLock.Lock { condInit := true, held := false, id := 5 }
        { cancelled := true, vals := [] } 5).out = .ret none true ∧
    (ContextLock.Lock { condInit := true, held := false, id := 5 }
        { cancelled := true, vals := [] } 5).state.held = true := by
  decide

/-- C4: the claim is the documented behaviour ("the returned Context will
never be nil") but the code violates it: `Lock` on a cancelled context at
depth 1 reaches `_withDepth`, which returns a nil context (`none`) together
with the cancellation error. -/
theorem lock_returns_nil_context_on_cancelled_finalization :
    (ContextLock.Lock { condInit := true, held := true, id := 9 }
        { cancelled := true, vals := [(9, 1)] } 9).out = .ret none true := by
  decide

/-- C5 counterexample: `Unlock` on a never-initialized lock with an
already-cancelled context takes the early no-op return and reports a nil
error, refuting the claim that `Release` always returns the cancellation
error when the input context has already been cancelled. -/
theorem unlock_nil_error_on_cancelled_uninitialized :
    (ContextLock.Unlock { condInit := false, held := false, id := 0 }
        { cancelled := true, vals := [] }).err = false := by
  decide

/-- C7: `Unlock` on a never-initialized lock (identifier zero), or at depth
0 while the lock is unheld, is a complete no-op for any input context: the
input context comes back unchanged, the error is nil, the whole lock state
is untouched, and no waiter is woken. -/
theorem unlock_noop (c : ContextLock) (ctx : Ctx)
    (h : c.id = 0 ∨ (c._depth ctx = 0 ∧ c.held = false)) :
    c.Unlock ctx =
      { state := c, rctx := some ctx, err := false, signals := 0, broadcasts := 0 } := by
  rcases h with h0 | ⟨hd, hh⟩
  · simp [ContextLock.Unlock, h0]
  · by_cases h0 : c.id = 0
    · simp [ContextLock.Unlock, h0]
    · simp [ContextLock.Unlock, h0, hd, hh]

/-- Witness for C7 at a concrete input: an initialized, unheld lock and a
context at depth 0. -/
theorem unlock_noop_witness :
    (({ condInit := true, held := false, id := 3 } : ContextLock).id = 0 ∨
      (ContextLock._depth { condInit := true, held := false, id := 3 }
          { cancelled := false, vals := [(8, 2)] } = 0 ∧
        ({ condInit := true, held := false, id := 3 } : ContextLock).held = false)) ∧
    ContextLock.Unlock { condInit := true, held := false, id := 3 }
        { cancelled := false, vals := [(8, 2)] } =
      { state := { condInit := true, held := false, id := 3 },
        rctx := some { cancelled := false, vals := [(8, 2)] },
        err := false, signals := 0, broadcasts := 0 } :=
  ⟨Or.inr (by decide),
    unlock_noop { condInit := true, held := false, id := 3 }
      { cancelled := false, vals := [(8, 2)] } (Or.inr (by decide))⟩

/-- C8 counterexample: `Unlock` called on the zero-valued lock (the first
call ever made on it) returns without assigning the identifier or creating
the waiters mechanism, refuting the claim that they are created lazily on
the first call to any of `Lock`, `Unlock` or `Clear`. -/
theorem unlock_does_not_initialize :
    (ContextLock.Unlock ContextLock.zero { cancelled := false, vals := [] }).state.id = 0 ∧
    (ContextLock.Unlock ContextLock.zero
        { cancelled := false, vals := [] }).state.condInit = false := by
  decide

/-- C8 amended: the identifier and the waiters mechanism are created lazily
on the first `Lock` call on a zero-valued lock; `Unlock` and `Clear` never
initialize them; once assigned, the identifier is non-zero (the setup loop
redraws until non-zero) and a `Lock` call on an already-initialized lock
leaves it unchanged. -/
theorem lazy_initialization (c : ContextLock) (ctx : Ctx) (fresh : Nat)
    (hf : fresh ≠ 0) :
    (c.id = 0 → (c.Lock ctx fresh).state.id = fresh ∧
      (c.Lock ctx fresh).state.condInit = true) ∧
    (c.id ≠ 0 → (c.Lock ctx fresh).state.id = c.id) ∧
    (c.Lock ctx fresh).state.id ≠ 0 ∧
    (c.Unlock ctx).state.id = c.id ∧
    (c.Unlock ctx).state.condInit = c.condInit ∧
    (c.Clear ctx).state = c := by
  have hLid : (c.Lock ctx fresh).state.id = (c.ensureSetup fresh).id := by
    simp only [ContextLock.Lock]
    split
    · split
      · split <;> rfl
      · rfl
    · rfl
  have hLci : (c.Lock ctx fresh).state.condInit = (c.ensureSetup fresh).condInit := by
    simp only [ContextLock.Lock]
    split
    · split
      · split <;> rfl
      · rfl
    · rfl
  have hUid : (c.Unlock ctx).state.id = c.id ∧ (c.Unlock ctx).state.condInit = c.condInit := by
    simp only [ContextLock.Unlock]
    split
    · exact ⟨rfl, rfl⟩
    · split
      · exact ⟨rfl, rfl⟩
      · split
        · exact ⟨rfl, rfl⟩
        · exact ⟨rfl, rfl⟩
  have hClear : (c.Clear ctx).state = c := by
    simp only [ContextLock.Clear]
    split
    · rfl
    · rfl
  refine ⟨?_, ?_, ?_, hUid.1, hUid.2, hClear⟩
  · intro h0
    rw [hLid, hLci, ensureSetup_id, ensureSetup_condInit]
    simp [h0]
  · intro h0
    rw [hLid, ensureSetup_id]
    simp [h0]
  · rw [hLid, ensureSetup_id]
    by_cases h0 : c.id = 0 <;> simp [h0, hf]

/-- Witness for C8 amended: the zero-valued lock at a non-zero fresh draw. -/
theorem lazy_initialization_witness :
    (5 : Nat) ≠ 0 ∧
    ((ContextLock.zero.id = 0 →
        (ContextLock.zero.Lock { cancelled := false, vals := [] } 5).state.id = 5 ∧
        (ContextLock.zero.Lock { cancelled := false, vals := [] } 5).state.condInit = true) ∧
      (ContextLock.zero.id ≠ 0 →
        (ContextLock.zero.Lock { cancelled := false, vals := [] } 5).state.id =
          ContextLock.zero.id) ∧
      (ContextLock.zero.Lock { cancelled := false, vals := [] } 5).state.id ≠ 0 ∧
      (ContextLock.zero.Unlock { cancelled := false, vals := [] }).state.id =
        ContextLock.zero.id ∧
      (ContextLock.zero.Unlock { cancelled := false, vals := [] }).state.condInit =
        ContextLock.zero.condInit ∧
      (ContextLock.zero.Clear { cancelled := false, vals := [] }).state = ContextLock.zero) :=
  ⟨by decide,
    lazy_initialization ContextLock.zero { cancelled := false, vals := [] } 5 (by decide)⟩

/-- C2: a `Lock` call on an initialized lock whose context already carries a
depth `N ≥ 1` for it, with cancellation not yet fired, returns without ever
entering the wait loop, leaves the whole lock state unchanged, and returns
(with a nil error) a context whose depth for this lock is `N + 1`. -/
theorem lock_reentrant (c : ContextLock) (ctx : Ctx) (fresh : Nat) (N : Int)
    (hid : c.id ≠ 0) (hd : c._depth ctx = N) (hN : 1 ≤ N)
    (hc : ctx.cancelled = false) :
    (c.Lock ctx fresh).waits = 0 ∧
    (c.Lock ctx fresh).state = c ∧
    (c.Lock ctx fresh).out = .ret (some (ctx.withValue c.id (N + 1))) false ∧
    c._depth (ctx.withValue c.id (N + 1)) = N + 1 := by
  have hs : c.ensureSetup fresh = c := ensureSetup_of_ne c fresh hid
  have hN0 : ¬ N = 0 := by omega
  refine ⟨?_, ?_, ?_, depth_withValue c ctx (N + 1)⟩ <;>
    simp [ContextLock.Lock, hs, hd, hN0, ContextLock._withDepth, hc]

/-- Witness for C2: a held lock with identifier 7 and a context at depth 2. -/
theorem lock_reentrant_witness :
    (({ condInit := true, held := true, id := 7 } : ContextLock).id ≠ 0 ∧
      ContextLock._depth { condInit := true, held := true, id := 7 }
          { cancelled := false, vals := [(7, 2)] } = 2 ∧
      (1 : Int) ≤ 2 ∧
      ({ cancelled := false, vals := [(7, 2)] } : Ctx).cancelled = false) ∧
    ((ContextLock.Lock { condInit := true, held := true, id := 7 }
        { cancelled := false, vals := [(7, 2)] } 4).waits = 0 ∧
      (ContextLock.Lock { condInit := true, held := true, id := 7 }
          { cancelled := false, vals := [(7, 2)] } 4).state =
        { condInit := true, held := true, id := 7 } ∧
      (ContextLock.Lock { condInit := true, held := true, id := 7 }
          { cancelled := false, vals := [(7, 2)] } 4).out =
        .ret (some (Ctx.withValue { cancelled := false, vals := [(7, 2)] } 7 (2 + 1))) false ∧
      ContextLock._depth { condInit := true, held := true, id := 7 }
          (Ctx.withValue { cancelled := false, vals := [(7, 2)] } 7 (2 + 1)) = 2 + 1) :=
  ⟨⟨by decide, by decide, by decide, by decide⟩,
    lock_reentrant { condInit := true, held := true, id := 7 }
      { cancelled := false, vals := [(7, 2)] } 4 2
      (by decide) (by decide) (by decide) (by decide)⟩

/-- C3: on an initialized lock with a non-cancelled context, `Unlock` clears
`held` and signals exactly one waiter precisely when the depth is 1, or the
depth is 0 while the lock is held; it never broadcasts; and at depth above 1
it merely decrements the depth in the returned context, waking nobody and
leaving the lock state (in particular `held`) unchanged. -/
theorem unlock_release (c : ContextLock) (ctx : Ctx)
    (hid : c.id ≠ 0) (hc : ctx.cancelled = false) :
    (((c.Unlock ctx).signals = 1 ∧ (c.Unlock ctx).state.held = false) ↔
      (c._depth ctx = 1 ∨ (c._depth ctx = 0 ∧ c.held = true))) ∧
    (c.Unlock ctx).broadcasts = 0 ∧
    (1 < c._depth ctx →
      (c.Unlock ctx).signals = 0 ∧ (c.Unlock ctx).state = c ∧
      (c.Unlock ctx).rctx = some (ctx.withValue c.id (c._depth ctx - 1))) := by
  by_cases hd0 : c._depth ctx = 0
  · by_cases hh : c.held = true
    · simp [ContextLock.Unlock, hid, hd0, hh, ContextLock._withDepth, hc]
    · simp only [Bool.not_eq_true] at hh
      simp [ContextLock.Unlock, hid, hd0, hh]
  · by_cases hd1 : c._depth ctx = 1
    · simp [ContextLock.Unlock, hid, hd0, hd1, ContextLock._withDepth, hc]
    · have hgt : ¬ (c._depth ctx = 0 ∨ c._depth ctx = 1) := not_or.mpr ⟨hd0, hd1⟩
      simp [ContextLock.Unlock, hid, hd0, hd1, hgt, ContextLock._withDepth, hc]
      intro h
      rw [if_pos (by omega : (0 : Int) < c._depth ctx)]

/-- Witness for C3: a held lock with identifier 6 and a non-cancelled
context at depth 1. -/
theorem unlock_release_witness :
    (({ condInit := true, held := true, id := 6 } : ContextLock).id ≠ 0 ∧
      ({ cancelled := false, vals := [(6, 1)] } : Ctx).cancelled = false) ∧
    (((ContextLock.Unlock { condInit := true, held := true, id := 6 }
          { cancelled := false, vals := [(6, 1)] }).signals = 1 ∧
        (ContextLock.Unlock { condInit := true, held := true, id := 6 }
            { cancelled := false, vals := [(6, 1)] }).state.held = false) ↔
      (ContextLock._depth { condInit := true, held := true, id := 6 }
          { cancelled := false, vals := [(6, 1)] } = 1 ∨
        (ContextLock._depth { condInit := true, held := true, id := 6 }
            { cancelled := false, vals := [(6, 1)] } = 0 ∧
          ({ condInit := true, held := true, id := 6 } : ContextLock).held = true))) ∧
    (ContextLock.Unlock { condInit := true, held := true, id := 6 }
        { cancelled := false, vals := [(6, 1)] }).broadcasts = 0 ∧
    (1 < ContextLock._depth { condInit := true, held := true, id := 6 }
        { cancelled := false, vals := [(6, 1)] } →
      (ContextLock.Unlock { condInit := true, held := true, id := 6 }
          { cancelled := false, vals := [(6, 1)] }).signals = 0 ∧
      (ContextLock.Unlock { condInit := true, held := true, id := 6 }
          { cancelled := false, vals := [(6, 1)] }).state =
        { condInit := true, held := true, id := 6 } ∧
      (ContextLock.Unlock { condInit := true, held := true, id := 6 }
          { cancelled := false, vals := [(6, 1)] }).rctx =
        some (Ctx.withValue { cancelled := false, vals := [(6, 1)] } 6
          (ContextLock._depth { condInit := true, held := true, id := 6 }
            { cancelled := false, vals := [(6, 1)] } - 1))) :=
  ⟨⟨by decide, by decide⟩,
    unlock_release { condInit := true, held := true, id := 6 }
      { cancelled := false, vals := [(6, 1)] } (by decide) (by decide)⟩

/-- C5 amended: on an already-cancelled input context, `Lock` always returns
the cancellation error (either the wait errors out or `_withDepth` does),
and `Unlock` returns the cancellation error except on its early no-op
returns — identifier still zero, or depth 0 while unheld — which return the
input context with a nil error without ever checking cancellation. -/
theorem cancelled_context_errors (c : ContextLock) (ctx : Ctx) (fresh : Nat)
    (hc : ctx.cancelled = true) :
    (∃ rc, (c.Lock ctx fresh).out = .ret rc true) ∧
    (c.id ≠ 0 → ¬(c._depth ctx = 0 ∧ c.held = false) → (c.Unlock ctx).err = true) ∧
    (c.id = 0 ∨ (c._depth ctx = 0 ∧ c.held = false) →
      (c.Unlock ctx).err = false ∧ (c.Unlock ctx).rctx = some ctx) := by
  refine ⟨?_, ?_, ?_⟩
  · simp only [ContextLock.Lock, ContextLock._withDepth, hc]
    split
    · split
      · exact ⟨some ctx, rfl⟩
      · exact ⟨none, rfl⟩
    · exact ⟨none, rfl⟩
  · intro hid hno
    by_cases hd01 : c._depth ctx = 0 ∨ c._depth ctx = 1 <;>
      simp [ContextLock.Unlock, hid, hno, hd01, ContextLock._withDepth, hc]
  · intro h
    rw [unlock_noop c ctx h]
    exact ⟨rfl, rfl⟩

/-- Witness for C5 amended: an initialized, held lock and a cancelled
context at depth 1. -/
theorem cancelled_context_errors_witness :
    ({ cancelled := true, vals := [(4, 1)] } : Ctx).cancelled = true ∧
    ((∃ rc, (ContextLock.Lock { condInit := true, held := true, id := 4 }
        { cancelled := true, vals := [(4, 1)] } 9).out = .ret rc true) ∧
      (({ condInit := true, held := true, id := 4 } : ContextLock).id ≠ 0 →
        ¬(ContextLock._depth { condInit := true, held := true, id := 4 }
              { cancelled := true, vals := [(4, 1)] } = 0 ∧
          ({ condInit := true, held := true, id := 4 } : ContextLock).held = false) →
        (ContextLock.Unlock { condInit := true, held := true, id := 4 }
            { cancelled := true, vals := [(4, 1)] }).err = true) ∧
      (({ condInit := true, held := true, id := 4 } : ContextLock).id = 0 ∨
          (ContextLock._depth { condInit := true, held := true, id := 4 }
              { cancelled := true, vals := [(4, 1)] } = 0 ∧
            ({ condInit := true, held := true, id := 4 } : ContextLock).held = false) →
        (ContextLock.Unlock { condInit := true, held := true, id := 4 }
            { cancelled := true, vals := [(4, 1)] }).err = false ∧
        (ContextLock.Unlock { condInit := true, held := true, id := 4 }
            { cancelled := true, vals := [(4, 1)] }).rctx =
          some { cancelled := true, vals := [(4, 1)] })) :=
  ⟨by decide,
    cancelled_context_errors { condInit := true, held := true, id := 4 }
      { cancelled := true, vals := [(4, 1)] } 9 (by decide)⟩

/-- C6: with a non-cancelled input context, `Clear` leaves the whole lock
state unchanged and returns a nil error; on a held lock it returns a new
context that is identical to the input — same cancellation status, same
value at every other key — except that this lock's depth value is forced to
0; on an unheld lock it returns the input context itself. -/
theorem clear_resets_depth (c : ContextLock) (ctx : Ctx)
    (hc : ctx.cancelled = false) :
    (c.Clear ctx).state = c ∧
    (c.Clear ctx).err = false ∧
    (c.held = true →
      (c.Clear ctx).rctx = some (ctx.withValue c.id 0) ∧
      (ctx.withValue c.id 0).cancelled = ctx.cancelled ∧
      (ctx.withValue c.id 0).value c.id = some 0 ∧
      c._depth (ctx.withValue c.id 0) = 0 ∧
      (∀ k, k ≠ c.id → (ctx.withValue c.id 0).value k = ctx.value k)) ∧
    (c.held = false → (c.Clear ctx).rctx = some ctx) := by
  have hval : ∀ k, k ≠ c.id → (ctx.withValue c.id 0).value k = ctx.value k := by
    intro k hk
    have hne : (c.id == k) = false := beq_eq_false_iff_ne.mpr (Ne.symm hk)
    simp [Ctx.withValue, Ctx.value, List.find?, hne]
  by_cases hh : c.held = true
  · refine ⟨?_, ?_, fun _ => ⟨?_, ?_, ?_, depth_withValue c ctx 0, hval⟩, fun h => ?_⟩ <;>
      simp_all [ContextLock.Clear, ContextLock._withDepth, Ctx.withValue, Ctx.value,
        List.find?, hc, hh]
  · simp only [Bool.not_eq_true] at hh
    refine ⟨?_, ?_, fun h => ?_, fun _ => ?_⟩ <;>
      simp_all [ContextLock.Clear, hh]

/-- Witness for C6: a held lock with identifier 11 and a non-cancelled
context at depth 3. -/
theorem clear_resets_depth_witness :
    ({ cancelled := false, vals := [(11, 3), (2, 5)] } : Ctx).cancelled = false ∧
    ((ContextLock.Clear { condInit := true, held := true, id := 11 }
        { cancelled := false, vals := [(11, 3), (2, 5)] }).state =
      { condInit := true, held := true, id := 11 } ∧
    (ContextLock.Clear { condInit := true, held := true, id := 11 }
        { cancelled := false, vals := [(11, 3), (2, 5)] }).err = false ∧
    (({ condInit := true, held := true, id := 11 } : ContextLock).held = true →
      (ContextLock.Clear { condInit := true, held := true, id := 11 }
          { cancelled := false, vals := [(11, 3), (2, 5)] }).rctx =
        some (Ctx.withValue { cancelled := false, vals := [(11, 3), (2, 5)] } 11 0) ∧
      (Ctx.withValue { cancelled := false, vals := [(11, 3), (2, 5)] } 11 0).cancelled =
        ({ cancelled := false, vals := [(11, 3), (2, 5)] } : Ctx).cancelled ∧
      (Ctx.withValue { cancelled := false, vals := [(11, 3), (2, 5)] } 11 0).value 11 =
        some 0 ∧
      ContextLock._depth { condInit := true, held := true, id := 11 }
        (Ctx.withValue { cancelled := false, vals := [(11, 3), (2, 5)] } 11 0) = 0 ∧
      (∀ k, k ≠ 11 →
        (Ctx.withValue { cancelled := false, vals := [(11, 3), (2, 5)] } 11 0).value k =
          Ctx.value { cancelled := false, vals := [(11, 3), (2, 5)] } k)) ∧
    (({ condInit := true, held := true, id := 11 } : ContextLock).held = false →
      (ContextLock.Clear { condInit := true, held := true, id := 11 }
          { cancelled := false, vals := [(11, 3), (2, 5)] }).rctx =
        some { cancelled := false, vals := [(11, 3), (2, 5)] })) :=
  ⟨by decide,
    clear_resets_depth { condInit := true, held := true, id := 11 }
      { cancelled := false, vals := [(11, 3), (2, 5)] } (by decide)⟩

/-- A `ContextLock` together with the number of callers currently blocked
inside `Lock`'s wait loop. -/
structure LSys where
  lock : ContextLock
  waiters : Nat
deriving DecidableEq

/-- One atomic, mutex-protected interaction with the lock: a `Lock` call
that completes without blocking, a `Lock` call that enters the wait loop
(its state effect is the setup prologue only), a blocked waiter resuming
after a signal with `held == false` and acquiring, a blocked waiter whose
`_wait` returned the cancellation error and who leaves without touching
`held`, an `Unlock` call, or a `Clear` call. -/
inductive LStep : LSys → LSys → Prop
  | lockRet (s : LSys) (ctx : Ctx) (fresh : Nat) (hf : fresh ≠ 0)
      (h : (s.lock.Lock ctx fresh).out ≠ .blocked) :
      LStep s { lock := (s.lock.Lock ctx fresh).state, waiters := s.waiters }
  | lockBlock (s : LSys) (ctx : Ctx) (fresh : Nat) (hf : fresh ≠ 0)
      (h : (s.lock.Lock ctx fresh).out = .blocked) :
      LStep s { lock := (s.lock.Lock ctx fresh).state, waiters := s.waiters + 1 }
  | resumeAcquire (s : LSys) (hw : 1 ≤ s.waiters) (hh : s.lock.held = false) :
      LStep s { lock := { s.lock with held := true }, waiters := s.waiters - 1 }
  | resumeCancel (s : LSys) (hw : 1 ≤ s.waiters) :
      LStep s { lock := s.lock, waiters := s.waiters - 1 }
  | unlockOp (s : LSys) (ctx : Ctx) :
      LStep s { lock := (s.lock.Unlock ctx).state, waiters := s.waiters }
  | clearOp (s : LSys) (ctx : Ctx) :
      LStep s { lock := (s.lock.Clear ctx).state, waiters := s.waiters }

/-- States reachable from the zero-valued lock with no blocked waiters by
any sequence of `Lock`, `Unlock` and `Clear` interactions. -/
inductive LReach : LSys → Prop
  | start : LReach { lock := ContextLock.zero, waiters := 0 }
  | step {s t : LSys} : LReach s → LStep s t → LReach t

/-- Inductive invariant for C10: an assigned identifier comes with an
allocated condition variable, a held lock has an assigned identifier, and so
does a lock with blocked waiters (every waiter ran the setup prologue on the
way in, and the identifier never returns to zero). -/
def LInv (s : LSys) : Prop :=
  (s.lock.id ≠ 0 → s.lock.condInit = true) ∧
  (s.lock.held = true → s.lock.id ≠ 0) ∧
  (1 ≤ s.waiters → s.lock.id ≠ 0)

/-- The `Unlock` successor state keeps the identifier and the condition
variable and never turns `held` on. -/
theorem unlock_state_fields (c : ContextLock) (ctx : Ctx) :
    (c.Unlock ctx).state.id = c.id ∧
    (c.Unlock ctx).state.condInit = c.condInit ∧
    ((c.Unlock ctx).state.held = true → c.held = true) := by
  simp only [ContextLock.Unlock]
  split
  · exact ⟨rfl, rfl, fun h => h⟩
  · split
    · exact ⟨rfl, rfl, fun h => h⟩
    · split
      · exact ⟨rfl, rfl, fun h => absurd h (by simp)⟩
      · exact ⟨rfl, rfl, fun h => h⟩

/-- The `Clear` successor state is the input state. -/
theorem clear_state (c : ContextLock) (ctx : Ctx) : (c.Clear ctx).state = c := by
  simp only [ContextLock.Clear]
  split
  · rfl
  · rfl

/-- The `Lock` successor state agrees with the setup prologue on the
identifier and the condition variable. -/
theorem lock_state_fields (c : ContextLock) (ctx : Ctx) (fresh : Nat) :
    (c.Lock ctx fresh).state.id = (c.ensureSetup fresh).id ∧
    (c.Lock ctx fresh).state.condInit = (c.ensureSetup fresh).condInit := by
  simp only [ContextLock.Lock]
  split
  · split
    · split <;> exact ⟨rfl, rfl⟩
    · exact ⟨rfl, rfl⟩
  · exact ⟨rfl, rfl⟩

/-- Every step of the lock system preserves the C10 invariant. -/
theorem LInv_step {s t : LSys} (hs : LInv s) (st : LStep s t) : LInv t := by
  obtain ⟨i1, i2, i3⟩ := hs
  cases st with
  | lockRet ctx fresh hf h =>
    obtain ⟨hid, hci⟩ := lock_state_fields s.lock ctx fresh
    rw [ensureSetup_id] at hid
    rw [ensureSetup_condInit] at hci
    by_cases h0 : s.lock.id = 0
    · rw [if_pos h0] at hid hci
      refine ⟨fun _ => hci, fun _ => ?_, fun _ => ?_⟩ <;> rw [hid] <;> exact hf
    · rw [if_neg h0] at hid hci
      refine ⟨fun _ => ?_, fun _ => ?_, fun _ => ?_⟩
      · rw [hci]
        exact i1 h0
      · rw [hid]
        exact h0
      · rw [hid]
        exact h0
  | lockBlock ctx fresh hf h =>
    obtain ⟨hid, hci⟩ := lock_state_fields s.lock ctx fresh
    rw [ensureSetup_id] at hid
    rw [ensureSetup_condInit] at hci
    by_cases h0 : s.lock.id = 0
    · rw [if_pos h0] at hid hci
      refine ⟨fun _ => hci, fun _ => ?_, fun _ => ?_⟩ <;> rw [hid] <;> exact hf
    · rw [if_neg h0] at hid hci
      refine ⟨fun _ => ?_, fun _ => ?_, fun _ => ?_⟩
      · rw [hci]
        exact i1 h0
      · rw [hid]
        exact h0
      · rw [hid]
        exact h0
  | resumeAcquire hw hh =>
    exact ⟨fun h => i1 h, fun _ => i3 hw, fun _ => i3 hw⟩
  | resumeCancel hw =>
    exact ⟨i1, i2, fun _ => i3 hw⟩
  | unlockOp ctx =>
    obtain ⟨hid, hci, hh⟩ := unlock_state_fields s.lock ctx
    refine ⟨fun h => ?_, fun h => ?_, fun h => ?_⟩
    · rw [hci]
      exact i1 (by rw [hid] at h; exact h)
    · rw [hid]
      exact i2 (hh h)
    · rw [hid]
      exact i3 h
  | clearOp ctx =>
    rw [clear_state]
    exact ⟨i1, i2, i3⟩

/-- The C10 invariant holds in every reachable state. -/
theorem LInv_reachable {s : LSys} (hs : LReach s) : LInv s := by
  induction hs with
  | start =>
    exact ⟨fun h => absurd rfl h, fun h => by simp [ContextLock.zero] at h,
      fun h => absurd h (by decide)⟩
  | step _ st ih => exact LInv_step ih st

/-- C10: in every state of a `ContextLock` reachable from the zero value by
any sequence of `Lock`, `Unlock` and `Clear` calls (including calls blocked
in the wait loop and their resumptions), if `held` is true then the
identifier is non-zero and the waiters mechanism is initialized. -/
theorem held_implies_initialized (s : LSys) (hs : LReach s)
    (hheld : s.lock.held = true) :
    s.lock.id ≠ 0 ∧ s.lock.condInit = true := by
  obtain ⟨i1, i2, _⟩ := LInv_reachable hs
  exact ⟨i2 hheld, i1 (i2 hheld)⟩

/-- Witness for C10: the state reached from the zero value by one
successful `Lock` call is held, and its identifier and waiters mechanism
are initialized. -/
theorem held_implies_initialized_witness :
    ({ lock := { condInit := true, held := true, id := 5 }, waiters := 0 } : LSys).lock.held
        = true ∧
    ({ lock := { condInit := true, held := true, id := 5 }, waiters := 0 } : LSys).lock.id
        ≠ 0 ∧
    ({ lock := { condInit := true, held := true, id := 5 },
        waiters := 0 } : LSys).lock.condInit = true :=
  ⟨rfl,
    held_implies_initialized
      { lock := { condInit := true, held := true, id := 5 }, waiters := 0 }
      (LReach.step LReach.start
        (LStep.lockRet { lock := ContextLock.zero, waiters := 0 }
          { cancelled := false, vals := [] } 5 (by decide) (by decide)))
      rfl⟩

/-- Phase of a call path with respect to one lock: not interacting, blocked
inside `Lock`'s wait loop, or inside the critical section between a
successful depth-0 `Lock` and the matching `Unlock` (holding the context
`Lock` returned, recorded by its value chain). -/
inductive Phase where
  | idle
  | waiting
  | cs (vals : List (Nat × Int))
deriving DecidableEq

/-- Whether a phase is the critical section. -/
def Phase.isCS : Phase → Bool
  | .cs _ => true
  | _ => false

/-- The phase a call path enters after its `Lock` call takes one atomic
step: blocked means waiting; a successful return enters the critical
section with the returned context; an error return leaves the path idle. -/
def phaseOfOut : LockRet → Phase
  | .blocked => .waiting
  | .ret (some ctx2) false => .cs ctx2.vals
  | .ret _ _ => .idle

/-- One call path: the cancellation status of its context (it may flip to
`true` at any time) and its phase. -/
structure Th where
  canc : Bool
  phase : Phase
deriving DecidableEq

/-- Two unrelated call paths `a` and `b` sharing one lock. -/
structure Sys where
  lock : ContextLock
  a : Th
  b : Th
deriving DecidableEq

/-- The initial system: a zero-valued lock, both paths idle with
non-cancelled contexts. -/
def Sys.start : Sys :=
  { lock := ContextLock.zero,
    a := { canc := false, phase := .idle },
    b := { canc := false, phase := .idle } }

/-- One atomic, mutex-protected step of the two-path system.  `L` is the
non-zero identifier the lazy setup draws; `vA` and `vB` are the value
chains of the two base contexts, which carry no depth for this lock (both
call paths start at depth 0).  A `Lock` call by an idle path runs one
atomic section and lands in the phase `phaseOfOut` describes; a waiter can
resume when `held` is false and acquire (its context not yet cancelled), or
leave with the cancellation error — either before setting `held` (its
`_wait` returned the error) or after (`_withDepth` observed the
cancellation); a path in the critical section can run `Unlock` with the
context its `Lock` returned; and a path's cancellation can fire at any
time. -/
inductive Step (L : Nat) (vA vB : List (Nat × Int)) : Sys → Sys → Prop
  | lockA (s : Sys) (h : s.a.phase = .idle) :
      Step L vA vB s
        { lock := (s.lock.Lock { cancelled := s.a.canc, vals := vA } L).state,
          a := { canc := s.a.canc,
                 phase := phaseOfOut (s.lock.Lock { cancelled := s.a.canc, vals := vA } L).out },
          b := s.b }
  | lockB (s : Sys) (h : s.b.phase = .idle) :
      Step L vA vB s
        { lock := (s.lock.Lock { cancelled := s.b.canc, vals := vB } L).state,
          a := s.a,
          b := { canc := s.b.canc,
                 phase := phaseOfOut (s.lock.Lock { cancelled := s.b.canc, vals := vB } L).out } }
  | wakeAcqA (s : Sys) (h : s.a.phase = .waiting) (hh : s.lock.held = false)
      (hc : s.a.canc = false) :
      Step L vA vB s
        { lock := { s.lock with held := true },
          a := { canc := s.a.canc, phase := .cs ((s.lock.id, (1 : Int)) :: vA) },
          b := s.b }
  | wakeAcqB (s : Sys) (h : s.b.phase = .waiting) (hh : s.lock.held = false)
      (hc : s.b.canc = false) :
      Step L vA vB s
        { lock := { s.lock with held := true },
          a := s.a,
          b := { canc := s.b.canc, phase := .cs ((s.lock.id, (1 : Int)) :: vB) } }
  | wakeAcqCancelA (s : Sys) (h : s.a.phase = .waiting) (hh : s.lock.held = false)
      (hc : s.a.canc = true) :
      Step L vA vB s
        { lock := { s.lock with held := true },
          a := { canc := s.a.canc, phase := .idle },
          b := s.b }
  | wakeAcqCancelB (s : Sys) (h : s.b.phase = .waiting) (hh : s.lock.held = false)
      (hc : s.b.canc = true) :
      Step L vA vB s
        { lock := { s.lock with held := true },
          a := s.a,
          b := { canc := s.b.canc, phase := .idle } }
  | wakeCancelA (s : Sys) (h : s.a.phase = .waiting) (hc : s.a.canc = true) :
      Step L vA vB s
        { lock := s.lock, a := { canc := s.a.canc, phase := .idle }, b := s.b }
  | wakeCancelB (s : Sys) (h : s.b.phase = .waiting) (hc : s.b.canc = true) :
      Step L vA vB s
        { lock := s.lock, a := s.a, b := { canc := s.b.canc, phase := .idle } }
  | unlockA (s : Sys) (v : List (Nat × Int)) (h : s.a.phase = .cs v) :
      Step L vA vB s
        { lock := (s.lock.Unlock { cancelled := s.a.canc, vals := v }).state,
          a := { canc := s.a.canc, phase := .idle },
          b := s.b }
  | unlockB (s : Sys) (v : List (Nat × Int)) (h : s.b.phase = .cs v) :
      Step L vA vB s
        { lock := (s.lock.Unlock { cancelled := s.b.canc, vals := v }).state,
          a := s.a,
          b := { canc := s.b.canc, phase := .idle } }
  | cancelA (s : Sys) :
      Step L vA vB s { lock := s.lock, a := { canc := true, phase := s.a.phase }, b := s.b }
  | cancelB (s : Sys) :
      Step L vA vB s { lock := s.lock, a := s.a, b := { canc := true, phase := s.b.phase } }

/-- System states reachable from the initial state. -/
inductive Reach (L : Nat) (vA vB : List (Nat × Int)) : Sys → Prop
  | start : Reach L vA vB Sys.start
  | step {s t : Sys} : Reach L vA vB s → Step L vA vB s t → Reach L vA vB t

/-- Inductive invariant for C9: the identifier is zero or `L`; a waiting
path implies the identifier is assigned; a path in the critical section
implies the lock is held, the identifier is `L` and its context is the base
context at depth 1; and at most one path is in the critical section. -/
def SysInv (L : Nat) (vA vB : List (Nat × Int)) (s : Sys) : Prop :=
  (s.lock.id = 0 ∨ s.lock.id = L) ∧
  (s.a.phase = .waiting → s.lock.id = L) ∧
  (s.b.phase = .waiting → s.lock.id = L) ∧
  (∀ v, s.a.phase = .cs v → s.lock.held = true ∧ s.lock.id = L ∧ v = (L, (1 : Int)) :: vA) ∧
  (∀ v, s.b.phase = .cs v → s.lock.held = true ∧ s.lock.id = L ∧ v = (L, (1 : Int)) :: vB) ∧
  ¬(s.a.phase.isCS = true ∧ s.b.phase.isCS = true)

/-- Running `Lock` on a context carrying no depth for this lock: the state
afterwards has identifier `L` and is held, and the phase the caller lands
in is determined by the prior `held` flag and the cancellation status. -/
theorem lock_depth0_run (c : ContextLock) (canc : Bool) (base : List (Nat × Int)) (L : Nat)
    (hL : L ≠ 0) (hid : c.id = 0 ∨ c.id = L)
    (hbase : List.find? (fun p => p.1 == L) base = none) :
    (c.Lock { cancelled := canc, vals := base } L).state.id = L ∧
    (c.Lock { cancelled := canc, vals := base } L).state.held = true ∧
    phaseOfOut (c.Lock { cancelled := canc, vals := base } L).out =
      (if c.held = true then (if canc = true then .idle else .waiting)
       else (if canc = true then .idle
             else .cs ((L, (1 : Int)) :: base))) := by
  have hid1 : (c.ensureSetup L).id = L := by
    rw [ensureSetup_id]
    rcases hid with h0 | hL2
    · rw [if_pos h0]
    · by_cases h0 : c.id = 0
      · rw [if_pos h0]
      · rw [if_neg h0, hL2]
  have hheld1 : (c.ensureSetup L).held = c.held := ensureSetup_held c L
  have hdep : ∀ cc : Bool, (c.ensureSetup L)._depth { cancelled := cc, vals := base } = 0 := by
    intro cc
    simp [ContextLock._depth, Ctx.value, hid1, hbase]
  by_cases hh : c.held = true <;> by_cases hc : canc = true <;>
    simp [ContextLock.Lock, hdep, hheld1, hh, hc, ContextLock._withDepth,
      Ctx.withValue, phaseOfOut, hid1]

/-- Running `Unlock` with the context a successful depth-0 `Lock` returned
(depth exactly 1): the lock state afterwards is the input state with `held`
cleared, whatever the cancellation status. -/
theorem unlock_cs_run (c : ContextLock) (canc : Bool) (base : List (Nat × Int)) (L : Nat)
    (hL : L ≠ 0) (hid : c.id = L) :
    (c.Unlock { cancelled := canc, vals := (L, (1 : Int)) :: base }).state =
      { c with held := false } := by
  have hid0 : ¬ c.id = 0 := by rw [hid]; exact hL
  have hdep : ∀ cc : Bool, c._depth { cancelled := cc, vals := (L, (1 : Int)) :: base } = 1 := by
    intro cc
    simp [ContextLock._depth, Ctx.value, List.find?, hid]
  by_cases hc : canc = true <;>
    simp [ContextLock.Unlock, hid0, hdep, ContextLock._withDepth, hc]

/-- A phase in the critical section is a `cs` phase. -/
theorem isCS_elim (p : Phase) (h : p.isCS = true) : ∃ v, p = .cs v := by
  cases p with
  | idle => simp [Phase.isCS] at h
  | waiting => simp [Phase.isCS] at h
  | cs v => exact ⟨v, rfl⟩

/-- Every step of the two-path system preserves the C9 invariant. -/
theorem SysInv_step (L : Nat) (vA vB : List (Nat × Int))
    (hL : L ≠ 0)
    (hA : List.find? (fun p => p.1 == L) vA = none)
    (hB : List.find? (fun p => p.1 == L) vB = none)
    {s t : Sys} (hs : SysInv L vA vB s) (st : Step L vA vB s t) :
    SysInv L vA vB t := by
  obtain ⟨i1, i2, i3, i4, i5, i6⟩ := hs
  cases st with
  | lockA h =>
    obtain ⟨j1, j2, j3⟩ := lock_depth0_run s.lock s.a.canc vA L hL i1 hA
    have hbcs : s.lock.held = false → ∀ w, s.b.phase ≠ .cs w := by
      intro hh w hw
      have := (i5 w hw).1
      rw [hh] at this
      simp at this
    by_cases hh : s.lock.held = true <;> by_cases hc : s.a.canc = true
    · rw [if_pos hh, if_pos hc] at j3
      refine ⟨Or.inr j1, ?_, fun _ => j1, ?_, ?_, ?_⟩
      · simp [j3]
      · simp [j3]
      · intro w hw
        exact ⟨j2, j1, (i5 w hw).2.2⟩
      · simp [j3, Phase.isCS]
    · rw [if_pos hh, if_neg hc] at j3
      refine ⟨Or.inr j1, ?_, fun _ => j1, ?_, ?_, ?_⟩
      · simp [j3, j1]
      · simp [j3]
      · intro w hw
        exact ⟨j2, j1, (i5 w hw).2.2⟩
      · simp [j3, Phase.isCS]
    · rw [if_neg hh, if_pos hc] at j3
      have hh2 : s.lock.held = false := by
        cases hhf : s.lock.held
        · rfl
        · exact absurd hhf hh
      refine ⟨Or.inr j1, ?_, fun _ => j1, ?_, ?_, ?_⟩
      · simp [j3]
      · simp [j3]
      · intro w hw
        exact absurd hw (hbcs hh2 w)
      · simp [j3, Phase.isCS]
    · rw [if_neg hh, if_neg hc] at j3
      have hh2 : s.lock.held = false := by
        cases hhf : s.lock.held
        · rfl
        · exact absurd hhf hh
      refine ⟨Or.inr j1, ?_, fun _ => j1, ?_, ?_, ?_⟩
      · simp [j3]
      · intro w hw
        simp only [j3] at hw
        simp only [Phase.cs.injEq] at hw
        exact ⟨j2, j1, hw.symm ▸ rfl⟩
      · intro w hw
        exact absurd hw (hbcs hh2 w)
      · intro hcs
        obtain ⟨w, hw⟩ := isCS_elim _ hcs.2
        exact absurd hw (hbcs hh2 w)
  | lockB h =>
    obtain ⟨j1, j2, j3⟩ := lock_depth0_run s.lock s.b.canc vB L hL i1 hB
    have hacs : s.lock.held = false → ∀ w, s.a.phase ≠ .cs w := by
      intro hh w hw
      have := (i4 w hw).1
      rw [hh] at this
      simp at this
    by_cases hh : s.lock.held = true <;> by_cases hc : s.b.canc = true
    · rw [if_pos hh, if_pos hc] at j3
      refine ⟨Or.inr j1, fun _ => j1, ?_, ?_, ?_, ?_⟩
      · simp [j3]
      · intro w hw
        exact ⟨j2, j1, (i4 w hw).2.2⟩
      · simp [j3]
      · simp [j3, Phase.isCS]
    · rw [if_pos hh, if_neg hc] at j3
      refine ⟨Or.inr j1, fun _ => j1, ?_, ?_, ?_, ?_⟩
      · simp [j3, j1]
      · intro w hw
        exact ⟨j2, j1, (i4 w hw).2.2⟩
      · simp [j3]
      · simp [j3, Phase.isCS]
    · rw [if_neg hh, if_pos hc] at j3
      have hh2 : s.lock.held = false := by
        cases hhf : s.lock.held
        · rfl
        · exact absurd hhf hh
      refine ⟨Or.inr j1, fun _ => j1, ?_, ?_, ?_, ?_⟩
      · simp [j3]
      · intro w hw
        exact absurd hw (hacs hh2 w)
      · simp [j3]
      · simp [j3, Phase.isCS]
    · rw [if_neg hh, if_neg hc] at j3
      have hh2 : s.lock.held = false := by
        cases hhf : s.lock.held
        · rfl
        · exact absurd hhf hh
      refine ⟨Or.inr j1, fun _ => j1, ?_, ?_, ?_, ?_⟩
      · simp [j3]
      · intro w hw
        exact absurd hw (hacs hh2 w)
      · intro w hw
        simp only [j3] at hw
        simp only [Phase.cs.injEq] at hw
        exact ⟨j2, j1, hw.symm ▸ rfl⟩
      · intro hcs
        obtain ⟨w, hw⟩ := isCS_elim _ hcs.1
        exact absurd hw (hacs hh2 w)
  | wakeAcqA h hh hc =>
    have hidL : s.lock.id = L := i2 h
    refine ⟨Or.inr hidL, ?_, fun _ => hidL, ?_, ?_, ?_⟩
    · simp
    · intro w hw
      simp only [Phase.cs.injEq] at hw
      refine ⟨rfl, hidL, ?_⟩
      rw [← hw, hidL]
    · intro w hw
      have := (i5 w hw).1
      rw [hh] at this
      simp at this
    · intro hcs
      obtain ⟨w, hw⟩ := isCS_elim _ hcs.2
      have := (i5 w hw).1
      rw [hh] at this
      simp at this
  | wakeAcqB h hh hc =>
    have hidL : s.lock.id = L := i3 h
    refine ⟨Or.inr hidL, fun _ => hidL, ?_, ?_, ?_, ?_⟩
    · simp
    · intro w hw
      have := (i4 w hw).1
      rw [hh] at this
      simp at this
    · intro w hw
      simp only [Phase.cs.injEq] at hw
      refine ⟨rfl, hidL, ?_⟩
      rw [← hw, hidL]
    · intro hcs
      obtain ⟨w, hw⟩ := isCS_elim _ hcs.1
      have := (i4 w hw).1
      rw [hh] at this
      simp at this
  | wakeAcqCancelA h hh hc =>
    refine ⟨i1, ?_, fun hw => i3 hw, ?_, ?_, ?_⟩
    · simp
    · simp
    · intro w hw
      have := (i5 w hw).1
      rw [hh] at this
      simp at this
    · simp [Phase.isCS]
  | wakeAcqCancelB h hh hc =>
    refine ⟨i1, fun hw => i2 hw, ?_, ?_, ?_, ?_⟩
    · simp
    · intro w hw
      have := (i4 w hw).1
      rw [hh] at this
      simp at this
    · simp
    · simp [Phase.isCS]
  | wakeCancelA h hc =>
    refine ⟨i1, ?_, fun hw => i3 hw, ?_, fun w hw => i5 w hw, ?_⟩
    · simp
    · simp
    · simp [Phase.isCS]
  | wakeCancelB h hc =>
    refine ⟨i1, fun hw => i2 hw, ?_, fun w hw => i4 w hw, ?_, ?_⟩
    · simp
    · simp
    · simp [Phase.isCS]
  | unlockA v h =>
    obtain ⟨hh, hidL, hv⟩ := i4 v h
    subst hv
    have hrun := unlock_cs_run s.lock s.a.canc vA L hL hidL
    refine ⟨?_, ?_, ?_, ?_, ?_, ?_⟩
    · rw [hrun]
      exact Or.inr hidL
    · simp
    · intro hw
      rw [hrun]
      exact i3 hw
    · simp
    · intro w hw
      have hacs : s.a.phase.isCS = true := by rw [h]; rfl
      have hbcs : s.b.phase.isCS = true := by rw [hw]; rfl
      exact absurd ⟨hacs, hbcs⟩ i6
    · simp [Phase.isCS]
  | unlockB v h =>
    obtain ⟨hh, hidL, hv⟩ := i5 v h
    subst hv
    have hrun := unlock_cs_run s.lock s.b.canc vB L hL hidL
    refine ⟨?_, ?_, ?_, ?_, ?_, ?_⟩
    · rw [hrun]
      exact Or.inr hidL
    · intro hw
      rw [hrun]
      exact i2 hw
    · simp
    · intro w hw
      have hacs : s.a.phase.isCS = true := by rw [hw]; rfl
      have hbcs : s.b.phase.isCS = true := by rw [h]; rfl
      exact absurd ⟨hacs, hbcs⟩ i6
    · simp
    · simp [Phase.isCS]
  | cancelA =>
    exact ⟨i1, fun hw => i2 hw, fun hw => i3 hw, fun w hw => i4 w hw,
      fun w hw => i5 w hw, i6⟩
  | cancelB =>
    exact ⟨i1, fun hw => i2 hw, fun hw => i3 hw, fun w hw => i4 w hw,
      fun w hw => i5 w hw, i6⟩

/-- The C9 invariant holds in every reachable state of the two-path
system. -/
theorem SysInv_reachable (L : Nat) (vA vB : List (Nat × Int))
    (hL : L ≠ 0)
    (hA : List.find? (fun p => p.1 == L) vA = none)
    (hB : List.find? (fun p => p.1 == L) vB = none)
    {s : Sys} (hs : Reach L vA vB s) : SysInv L vA vB s := by
  induction hs with
  | start =>
    refine ⟨Or.inl rfl, ?_, ?_, ?_, ?_, ?_⟩ <;> simp [Sys.start, Phase.isCS]
  | step _ st ih => exact SysInv_step L vA vB hL hA hB ih st

/-- C9: for two concurrent, unrelated call paths whose contexts both start
at depth 0 for this lock, in every reachable state of the system (whose
atomic steps are exactly the mutex-protected critical sections of `Lock`
and `Unlock`, so in particular the `held` false-to-true transition happens
inside one such serialized step), at most one path is between a successful
depth-0 `Lock` and its matching `Unlock`; moreover while `held` is false
neither path is in the critical section, so no two depth-0 acquisitions
can both observe `held == false`. -/
theorem mutual_exclusion (L : Nat) (vA vB : List (Nat × Int)) (s : Sys)
    (hL : L ≠ 0)
    (hA : List.find? (fun p => p.1 == L) vA = none)
    (hB : List.find? (fun p => p.1 == L) vB = none)
    (hs : Reach L vA vB s) :
    ¬(s.a.phase.isCS = true ∧ s.b.phase.isCS = true) ∧
    (s.lock.held = false →
      s.a.phase.isCS = false ∧ s.b.phase.isCS = false) := by
  obtain ⟨i1, i2, i3, i4, i5, i6⟩ := SysInv_reachable L vA vB hL hA hB hs
  refine ⟨i6, fun hh => ⟨?_, ?_⟩⟩
  · cases hcs : s.a.phase.isCS
    · rfl
    · obtain ⟨w, hw⟩ := isCS_elim _ hcs
      have := (i4 w hw).1
      rw [hh] at this
      simp at this
  · cases hcs : s.b.phase.isCS
    · rfl
    · obtain ⟨w, hw⟩ := isCS_elim _ hcs
      have := (i5 w hw).1
      rw [hh] at this
      simp at this

/-- The state after path `a` runs one `Lock` step from the initial state
with identifier draw 3 and empty base contexts. -/
def stepOneSys : Sys :=
  { lock := (ContextLock.zero.Lock { cancelled := false, vals := [] } 3).state,
    a := { canc := false,
           phase := phaseOfOut (ContextLock.zero.Lock { cancelled := false, vals := [] } 3).out },
    b := { canc := false, phase := .idle } }

/-- Witness for C9: `stepOneSys` is reachable, and the mutual-exclusion
property holds there. -/
theorem mutual_exclusion_witness :
    (3 : Nat) ≠ 0 ∧
    List.find? (fun p => p.1 == 3) ([] : List (Nat × Int)) = none ∧
    (¬(stepOneSys.a.phase.isCS = true ∧ stepOneSys.b.phase.isCS = true) ∧
      (stepOneSys.lock.held = false →
        stepOneSys.a.phase.isCS = false ∧ stepOneSys.b.phase.isCS = false)) :=
  ⟨by decide, rfl,
    mutual_exclusion 3 [] [] stepOneSys (by decide) rfl rfl
      (Reach.step Reach.start (Step.lockA Sys.start rfl))⟩
